import Mathlib

/-!
A verification development for the JLCPCB component-search engine
(`JLCPCB_search.py` and `util.py`).

Strings are modelled as `List Char` (Unicode scalar values, matching Python
`str`).  JSON values that the Python code inspects dynamically (lists, dicts,
numbers, null/NaN) are modelled by explicit inductive types; a JSON `null` and
an absent key are identified as `Option.none`, and a pandas column is modelled
as present when some record of the batch carries the field.  Numbers are
modelled by `ℚ` (the Python code works with IEEE floats; all numeric claims
checked here involve exactly representable values).
-/

namespace JLC

/-- Whitespace characters recognised by Python's regex `\s` on ASCII text
(space, tab, newline, carriage return, vertical tab, form feed). -/
def isWsCh (c : Char) : Bool :=
  c = ' ' || c = '\t' || c = '\n' || c = '\r' || c.toNat = 11 || c.toNat = 12

/-- ASCII range test, matching the regex character class `[\x00-\x7F]` used in
`clean_text_value` step 4. -/
def isAsciiCh (c : Char) : Bool :=
  c.toNat ≤ 127

/-- Decimal digit, matching the regex class `\d` for ASCII digits. -/
def isDigitCh (c : Char) : Bool :=
  48 ≤ c.toNat && c.toNat ≤ 57

/-- Python `str.lower` on a single scalar value, modelled for the character
ranges this code base manipulates: ASCII letters, Latin-1 uppercase letters
and Greek capital letters (so that 'Ω' lowers to 'ω' and 'Μ' to 'μ', exactly
as in CPython).  Characters outside these ranges are fixed points, which
agrees with CPython on every character appearing in this development. -/
def pyLower (c : Char) : Char :=
  if 65 ≤ c.toNat ∧ c.toNat ≤ 90 then Char.ofNat (c.toNat + 32)
  else if 192 ≤ c.toNat ∧ c.toNat ≤ 222 ∧ c.toNat ≠ 215 then Char.ofNat (c.toNat + 32)
  else if 913 ≤ c.toNat ∧ c.toNat ≤ 937 ∧ c.toNat ≠ 930 then Char.ofNat (c.toNat + 32)
  else c

/-- Case folding as used by Python's `re.IGNORECASE` matching; it agrees with
`pyLower` except that the micro sign U+00B5 folds to Greek small mu U+03BC. -/
def pyFold (c : Char) : Char :=
  if c = 'µ' then 'μ' else pyLower c

/-- Unicode combining-mark test (category Mn), modelled by the block
U+0300–U+036F of combining diacritical marks; this is exact for all marks
produced by the NFD table below, and `false` on all ASCII characters. -/
def isCombMark (c : Char) : Bool :=
  768 ≤ c.toNat && c.toNat ≤ 879

/-- Unicode canonical decomposition (NFD) of one scalar value, modelled by a
table of the Latin letters with diacritics this development exercises.  Every
ASCII character decomposes to itself (exact w.r.t. Unicode); characters not in
the table are kept unchanged. -/
def nfdChar (c : Char) : List Char :=
  if c.toNat ≤ 127 then [c]
  else if c = 'á' then ['a', Char.ofNat 769]
  else if c = 'é' then ['e', Char.ofNat 769]
  else if c = 'í' then ['i', Char.ofNat 769]
  else if c = 'ó' then ['o', Char.ofNat 769]
  else if c = 'ú' then ['u', Char.ofNat 769]
  else if c = 'è' then ['e', Char.ofNat 768]
  else if c = 'ü' then ['u', Char.ofNat 776]
  else if c = 'ñ' then ['n', Char.ofNat 771]
  else if c = 'ç' then ['c', Char.ofNat 807]
  else if c = 'Á' then ['A', Char.ofNat 769]
  else if c = 'É' then ['E', Char.ofNat 769]
  else if c = 'Í' then ['I', Char.ofNat 769]
  else if c = 'Ó' then ['O', Char.ofNat 769]
  else if c = 'Ú' then ['U', Char.ofNat 769]
  else if c = 'Ü' then ['U', Char.ofNat 776]
  else if c = 'Ñ' then ['N', Char.ofNat 771]
  else if c = 'Ç' then ['C', Char.ofNat 807]
  else [c]

/-- Replace every maximal run of whitespace by a single space, modelling
Python's `re.sub(r"\s+", " ", text)`. -/
def collapseWs : List Char → List Char
  | [] => []
  | [c] => if isWsCh c then [' '] else [c]
  | c :: d :: rest =>
    if isWsCh c ∧ isWsCh d then collapseWs (d :: rest)
    else (if isWsCh c then ' ' else c) :: collapseWs (d :: rest)

/-- Python `str.strip()`: remove leading and trailing whitespace. -/
def stripEnds (s : List Char) : List Char :=
  ((s.dropWhile isWsCh).reverse.dropWhile isWsCh).reverse

/-- `clean_text_value` from `util.py` on a string argument: NFD-decompose,
drop combining marks, lowercase, drop non-ASCII characters, collapse
whitespace runs to single spaces and strip the ends. -/
def cleanTextValue (s : List Char) : List Char :=
  let noMarks := (s.flatMap nfdChar).filter (fun c => !isCombMark c)
  let lowered := noMarks.map pyLower
  let ascii := lowered.filter isAsciiCh
  stripEnds (collapseWs ascii)

/-- Spot check of the normalizer on the spec's own example (mixed case,
accent, double space, non-ASCII unit letter). -/
theorem cleanTextValue_spot_check :
    cleanTextValue "  Résistance  10kΩ ".toList = "resistance 10k".toList := by decide

/-! ### Exact decimal numbers

The Python code computes with IEEE floats.  We model the numbers exactly: a
`Dec` is the rational `m / 10^e`.  All numeric literals in the source
(`1e-12` … `1e9`, `999999`, the `np.isclose` tolerances) and all values the
parser builds are of this shape, and the arithmetic below implements the
corresponding exact rational operations (so claims about numeric outcomes are
checked over the exact values; every value exercised by the claims is exactly
float-representable as well). -/

structure Dec where
  m : ℤ
  e : ℕ
deriving Repr, DecidableEq

namespace Dec

/-- The rational value `m / 10^e` denoted by a `Dec`. -/
def toRat (a : Dec) : ℚ := (a.m : ℚ) / (10 : ℚ) ^ a.e

/-- A natural number as a `Dec`. -/
def ofNat (n : Nat) : Dec := ⟨n, 0⟩

def mul (a b : Dec) : Dec := ⟨a.m * b.m, a.e + b.e⟩

def add (a b : Dec) : Dec := ⟨a.m * 10 ^ b.e + b.m * 10 ^ a.e, a.e + b.e⟩

def sub (a b : Dec) : Dec := ⟨a.m * 10 ^ b.e - b.m * 10 ^ a.e, a.e + b.e⟩

def dabs (a : Dec) : Dec := ⟨|a.m|, a.e⟩

def le (a b : Dec) : Bool := decide (a.m * (10 : ℤ) ^ b.e ≤ b.m * (10 : ℤ) ^ a.e)

def lt (a b : Dec) : Bool := decide (a.m * (10 : ℤ) ^ b.e < b.m * (10 : ℤ) ^ a.e)

theorem le_iff (a b : Dec) : a.le b = true ↔ a.toRat ≤ b.toRat := by
  rw [le, toRat, toRat, decide_eq_true_iff,
    div_le_div_iff₀ (by positivity) (by positivity)]
  constructor <;> intro h <;> exact_mod_cast h

theorem lt_iff (a b : Dec) : a.lt b = true ↔ a.toRat < b.toRat := by
  rw [lt, toRat, toRat, decide_eq_true_iff,
    div_lt_div_iff₀ (by positivity) (by positivity)]
  constructor <;> intro h <;> exact_mod_cast h

theorem toRat_mul (a b : Dec) : (a.mul b).toRat = a.toRat * b.toRat := by
  simp only [mul, toRat]
  push_cast
  rw [pow_add]
  field_simp

theorem toRat_add (a b : Dec) : (a.add b).toRat = a.toRat + b.toRat := by
  simp only [add, toRat]
  push_cast
  rw [pow_add]
  field_simp

theorem toRat_sub (a b : Dec) : (a.sub b).toRat = a.toRat - b.toRat := by
  simp only [sub, toRat]
  push_cast
  rw [pow_add]
  field_simp
  ring

theorem toRat_dabs (a : Dec) : a.dabs.toRat = |a.toRat| := by
  simp only [dabs, toRat]
  rw [abs_div]
  push_cast
  congr 1
  rw [abs_of_pos (by positivity)]

end Dec

/-! ### Unit parser (`_parse_parametric_query`) -/

/-- The nine unit categories produced by `_parse_parametric_query`. -/
inductive UnitType where
  | Capacitance | Inductance | Voltage | Current | Frequency
  | Power | Resistance | Tolerance | Temperature
deriving Repr, DecidableEq

/-- The five comparison operators; `eq` is the implicit default. -/
inductive Op where
  | eq | lt | gt | le | ge
deriving Repr, DecidableEq

/-- The normalized dictionary returned by `_parse_parametric_query`:
operator, SI-scaled value, unit category and the captured prefix text. -/
structure ParsedCond where
  operator : Op
  value_si : Dec
  unit_type : UnitType
  prefixChar : Option Char
deriving Repr, DecidableEq

/-- Numeric value of a digit string. -/
def digitsToNat (ds : List Char) : Nat :=
  ds.foldl (fun a c => 10 * a + (c.toNat - 48)) 0

/-- Match the regex fragment `(\d*\.?\d+)` at the front of the input and
return the captured value together with the unconsumed rest.  The group must
end in a digit, so a dot not followed by digits is left unconsumed (which then
makes the whole pattern fail at the unit, as in the Python regex). -/
def parseNumber (s : List Char) : Option (Dec × List Char) :=
  let intPart := s.takeWhile isDigitCh
  let rest1 := s.dropWhile isDigitCh
  if rest1.head? = some '.' then
    let rest2 := rest1.tail
    let frac := rest2.takeWhile isDigitCh
    let rest3 := rest2.dropWhile isDigitCh
    if frac = [] then
      if intPart = [] then none else some (Dec.ofNat (digitsToNat intPart), rest1)
    else some (⟨digitsToNat (intPart ++ frac), frac.length⟩, rest3)
  else if intPart = [] then none else some (Dec.ofNat (digitsToNat intPart), rest1)

/-- Does the character match the prefix group `(p|n|u|µ|m|k|K|M|G)` under
`re.IGNORECASE`?  Case-insensitive matching is by case folding, so this set
also contains the uppercase letters and the mu variants. -/
def isPrefixCh (c : Char) : Bool :=
  pyFold c ∈ ['p', 'n', 'u', 'm', 'k', 'g', 'μ']

/-- The `prefix_map` dictionary of `_parse_parametric_query`, looked up with
the (lowercased) captured prefix.  The `K`, `M` and `G` entries are present in
the source but can never be hit, because the lookup key is lowercased. -/
def prefixFactor (c : Char) : Option Dec :=
  if c = 'p' then some ⟨1, 12⟩
  else if c = 'n' then some ⟨1, 9⟩
  else if c = 'u' then some ⟨1, 6⟩
  else if c = 'µ' then some ⟨1, 6⟩
  else if c = 'm' then some ⟨1, 3⟩
  else if c = 'k' then some ⟨1000, 0⟩
  else if c = 'K' then some ⟨1000, 0⟩
  else if c = 'M' then some ⟨1000000, 0⟩
  else if c = 'G' then some ⟨1000000000, 0⟩
  else none

/-- The alternatives of the unit group
`(F|H|V|A|Hz|W|Ω|ohm|ohms|%|C|°C|R)` in source order. -/
def unitAlts : List (List Char) :=
  [['F'], ['H'], ['V'], ['A'], ['H', 'z'], ['W'], ['Ω'],
   ['o', 'h', 'm'], ['o', 'h', 'm', 's'], ['%'], ['C'], ['°', 'C'], ['R']]

/-- Match the regex tail `(unit)\s*$` against `s`: the input minus trailing
whitespace must case-insensitively equal one of the unit alternatives; the
captured text is the input spelling. -/
def parseUnitTail (s : List Char) : Option (List Char) :=
  let core := (s.reverse.dropWhile isWsCh).reverse
  if unitAlts.any (fun alt => core.map pyFold = alt.map pyFold) then some core else none

/-- The `if`/`elif` chain mapping the lowercased captured unit to its
category; `none` models the `unit_type is None` early return. -/
def unitCategory (core : List Char) : Option UnitType :=
  let ul := core.map pyLower
  if ul = ['f'] then some .Capacitance
  else if ul = ['h'] then some .Inductance
  else if ul = ['v'] then some .Voltage
  else if ul = ['a'] then some .Current
  else if ul = ['h', 'z'] then some .Frequency
  else if ul = ['w'] then some .Power
  else if ul = ['ω'] ∨ ul = ['o', 'h', 'm'] ∨ ul = ['o', 'h', 'm', 's'] ∨ ul = ['r'] then
    some .Resistance
  else if ul = ['%'] then some .Tolerance
  else if ul = ['c'] ∨ ul = ['°', 'c'] then some .Temperature
  else none

/-- `_parse_parametric_query` from `JLCPCB_search.py`: match
`^\s*(>=|<=|>|<)?\s*(\d*\.?\d+)\s*(p|n|u|µ|m|k|K|M|G)?\s*(unit)\s*$` with
`re.IGNORECASE`, then normalize operator, scale the value by
`prefix_map.get(prefix.lower(), 1)` and map the unit to its category.
The regex alternation is deterministic here because no unit alternative
begins with a character of the prefix group, so trying the prefix first and
falling back mirrors the engine's backtracking exactly. -/
def parseParametricQuery (s : List Char) : Option ParsedCond :=
  let s0 := s.dropWhile isWsCh
  let opSplit : Op × List Char :=
    if s0.take 2 = ['>', '='] then (Op.ge, s0.drop 2)
    else if s0.take 2 = ['<', '='] then (Op.le, s0.drop 2)
    else if s0.take 1 = ['>'] then (Op.gt, s0.drop 1)
    else if s0.take 1 = ['<'] then (Op.lt, s0.drop 1)
    else (Op.eq, s0)
  match parseNumber (opSplit.2.dropWhile isWsCh) with
  | none => none
  | some (v, s3) =>
    let s4 := s3.dropWhile isWsCh
    let pu : Option Char × Option (List Char) :=
      match s4 with
      | c :: rest =>
        if isPrefixCh c then
          match parseUnitTail (rest.dropWhile isWsCh) with
          | some u => (some c, some u)
          | none => (none, parseUnitTail s4)
        else (none, parseUnitTail s4)
      | [] => (none, none)
    match pu.2 with
    | none => none
    | some u =>
      match unitCategory u with
      | none => none
      | some ut =>
        let factor : Dec :=
          match pu.1 with
          | none => Dec.ofNat 1
          | some c => (prefixFactor (pyLower c)).getD (Dec.ofNat 1)
        some ⟨opSplit.1, v.mul factor, ut, pu.1⟩

/-- Spot checks of the parser against the docstring's own examples
(including whitespace tolerance and parse failure on plain text). -/
theorem parseParametricQuery_spot_checks :
    parseParametricQuery "<0.1uF".toList =
      some ⟨Op.lt, ⟨1, 7⟩, UnitType.Capacitance, some 'u'⟩ ∧
    parseParametricQuery "25V".toList =
      some ⟨Op.eq, ⟨25, 0⟩, UnitType.Voltage, none⟩ ∧
    parseParametricQuery "100ohm".toList =
      some ⟨Op.eq, ⟨100, 0⟩, UnitType.Resistance, none⟩ ∧
    parseParametricQuery "10GHz".toList =
      some ⟨Op.eq, ⟨10, 0⟩, UnitType.Frequency, some 'G'⟩ ∧
    parseParametricQuery "resistor".toList = none ∧
    parseParametricQuery " <= 2.2 m H ".toList =
      some ⟨Op.le, ⟨22, 4⟩, UnitType.Inductance, some 'm'⟩ := by
  refine ⟨by decide, by decide, by decide, by decide, by decide, by decide⟩

/-! ### Condition evaluator (`_evaluate_parametric_condition`) -/

/-- `np.isclose(a, b)` with the default tolerances
`rtol = 1e-5`, `atol = 1e-8`: `|a - b| ≤ atol + rtol * |b|`. -/
def isclose (a b : Dec) : Bool :=
  ((a.sub b).dabs).le (Dec.add ⟨1, 8⟩ (Dec.mul ⟨1, 5⟩ b.dabs))

/-- The comparison branch of `_evaluate_parametric_condition`: `a` is the
component's SI value, `b` the condition's.  `==`, `>=` and `<=` are
epsilon-tolerant via `np.isclose`; `>` and `<` are strict. -/
def compareOp (op : Op) (a b : Dec) : Bool :=
  match op with
  | .eq => isclose a b
  | .gt => b.lt a
  | .lt => a.lt b
  | .ge => b.lt a || isclose a b
  | .le => a.lt b || isclose a b

/-- One entry of a component's `Specifications` list: either not a dict
(skipped by the scan), or a dict whose `attribute_name_en` /
`attribute_value_name` keys may be absent (`.get` then yields `''`).
String-valued JSON attributes are modelled; the scan never reads the name. -/
inductive SpecEntry where
  | notDict : SpecEntry
  | entry (attrName : Option (List Char)) (attrValue : Option (List Char)) : SpecEntry
deriving Repr, DecidableEq

/-- The value of a record's `Specifications` cell: a list, or any non-list
value (including NaN for a missing cell). -/
inductive SpecsVal where
  | notList : SpecsVal
  | list (entries : List SpecEntry) : SpecsVal
deriving Repr, DecidableEq

/-- The `for spec in component_specs` loop: skip non-dict entries, parse each
dict's `attribute_value_name` (missing key → `''`), and return `True` on the
first entry whose unit category equals the condition's and whose SI value
satisfies the comparison. -/
def evalSpecList (cond : ParsedCond) : List SpecEntry → Bool
  | [] => false
  | .notDict :: rest => evalSpecList cond rest
  | .entry _ v :: rest =>
    match parseParametricQuery (v.getD []) with
    | some p =>
      if p.unit_type = cond.unit_type ∧ compareOp cond.operator p.value_si cond.value_si then
        true
      else evalSpecList cond rest
    | none => evalSpecList cond rest

/-- `_evaluate_parametric_condition`: `False` for non-list input, otherwise
scan the list. -/
def evalParametricCondition (sv : SpecsVal) (cond : ParsedCond) : Bool :=
  match sv with
  | .notList => false
  | .list l => evalSpecList cond l

/-! ### Records, queries and the search engine -/

/-- One element of a `Price Tiers` list: `notDict` stands for any value that
fails the `tier and isinstance(tier, dict)` guard (non-dicts, `None`, the
empty dict), `tier p` for a dict whose `productPrice` key holds `p`
(absent key → the 999999 default). -/
inductive Tier where
  | notDict : Tier
  | tier (productPrice : Option Dec) : Tier
deriving Repr, DecidableEq

/-- The value of a record's `Price Tiers` cell: a list, or any non-list value
(including NaN for a missing cell). -/
inductive TiersVal where
  | notList : TiersVal
  | list (tiers : List Tier) : TiersVal
deriving Repr, DecidableEq

/-- Loop body of `get_min_price` in `util.py`. -/
def minPriceFold (acc : Dec) (t : Tier) : Dec :=
  match t with
  | .notDict => acc
  | .tier p => if (p.getD ⟨999999, 0⟩).lt acc then p.getD ⟨999999, 0⟩ else acc

/-- `get_min_price` from `util.py`: 999999 for a non-list or empty cell,
otherwise the minimum `productPrice` over the dict tiers (each missing price
defaulting to 999999, strict `<` against the running minimum). -/
def getMinPrice (pt : Option TiersVal) : Dec :=
  match pt with
  | some (.list ts) =>
    if ts.length = 0 then ⟨999999, 0⟩ else ts.foldl minPriceFold ⟨999999, 0⟩
  | _ => ⟨999999, 0⟩

/-- A component record, with the dataframe columns the search engine reads.
Field order: `JLCPCB Part`, `Model`, `Category`, `Package`, `Description`,
`Manufacturer`, `Short Description`, `Stock`, `Preference Level`,
`Price Tiers`, `Specifications`.  `none` models both an absent key and a JSON
null/NaN cell. -/
structure Record where
  jlcpcbPart : Option (List Char)
  model : Option (List Char)
  category : Option (List Char)
  package : Option (List Char)
  description : Option (List Char)
  manufacturer : Option (List Char)
  shortDescription : Option (List Char)
  stock : Option ℤ
  preferenceLevel : Option ℤ
  priceTiers : Option TiersVal
  specifications : Option SpecsVal
deriving Repr, DecidableEq

/-- The arguments of `search_components` / `_perform_search_on_df` (the
`specifications` dict argument is omitted: the source accepts it but its
filtering logic is `pass`). -/
structure Query where
  queryText : Option (List Char)
  minStock : Option ℤ
  maxPreferenceLevel : Option ℤ
  package : Option (List Char)
  manufacturer : Option (List Char)
deriving Repr, DecidableEq

/-- Is the column present in the dataframe built from these records?
(pandas materialises a column when some record carries the field; row
filtering never removes columns, so stages compute this on the full batch.) -/
def hasCol {α : Type} (f : Record → Option α) (df : List Record) : Bool :=
  df.any (fun r => (f r).isSome)

/-- The `Specifications` cell as seen by the evaluator: a NaN/missing cell is
a non-list. -/
def specsOf (r : Record) : SpecsVal :=
  r.specifications.getD SpecsVal.notList

/-- Stage 1a: `result_df["Stock"].fillna(0) >= min_stock`, applied only when
`min_stock is not None` and the `Stock` column exists. -/
def stockStage (df cur : List Record) (ms : Option ℤ) : List Record :=
  match ms with
  | some m =>
    if hasCol Record.stock df then cur.filter (fun r => decide (m ≤ r.stock.getD 0)) else cur
  | none => cur

/-- Stage 1b: `result_df["Preference Level"].fillna(99) <= max_preference_level`,
applied only when the bound is not `None` and the column exists. -/
def prefStage (df cur : List Record) (mp : Option ℤ) : List Record :=
  match mp with
  | some m =>
    if hasCol Record.preferenceLevel df then
      cur.filter (fun r => decide (r.preferenceLevel.getD 99 ≤ m))
    else cur
  | none => cur

/-- One alternative of a package/manufacturer filter: the token is passed
through `clean_text_value` and `re.escape`, and the raw stored field is
matched case-insensitively (`str.contains(..., case=False)`), i.e. the
escaped pattern occurs in the field after lowercasing both sides. -/
def matchAlt (fieldVal tok : List Char) : Bool :=
  decide (((cleanTextValue tok).map pyLower) <:+: (fieldVal.map pyLower))

/-- The whole package/manufacturer filter value: split on `|`, match if any
alternative occurs. -/
def fieldFilterMatches (fieldVal ft : List Char) : Bool :=
  (ft.splitOn '|').any (fun part => matchAlt fieldVal part)

/-- Stage 2: the `Package` / `Manufacturer` substring filter, applied when
the filter text is truthy, the column exists and the current result is
non-empty; a missing field is `fillna("")`. -/
def fieldStage (df cur : List Record) (getF : Record → Option (List Char))
    (ft : Option (List Char)) : List Record :=
  match ft with
  | some f =>
    if ¬f.isEmpty ∧ hasCol getF df ∧ ¬cur.isEmpty then
      cur.filter (fun r => fieldFilterMatches ((getF r).getD []) f)
    else cur
  | none => cur

/-- Python `str.split()` with no argument: split on whitespace runs,
discarding empty pieces. -/
def splitWsAux : List Char → List Char → List (List Char)
  | [], acc => if acc.isEmpty then [] else [acc.reverse]
  | c :: cs, acc =>
    if isWsCh c then
      if acc.isEmpty then splitWsAux cs [] else acc.reverse :: splitWsAux cs []
    else splitWsAux cs (c :: acc)

def splitWsTokens (s : List Char) : List (List Char) :=
  splitWsAux s []

/-- `if query_text:` followed by `query_text.split()`. -/
def queryTokens (qt : Option (List Char)) : List (List Char) :=
  match qt with
  | some s => if s.isEmpty then [] else splitWsTokens s
  | none => []

/-- Stage 3: offer each token to the unit parser; successes become parametric
conditions, failures literal text tokens (both in input order). -/
def classifyTokens : List (List Char) → List ParsedCond × List (List Char)
  | [] => ([], [])
  | t :: ts =>
    let rest := classifyTokens ts
    match parseParametricQuery t with
    | some p => (p :: rest.1, rest.2)
    | none => (rest.1, t :: rest.2)

/-- The searchable text of one record: the existing columns among
`JLCPCB Part`, `Model`, `Category`, `Package`, `Description`, `Manufacturer`,
`Short Description` (in that order), NaN as `''`, joined by single spaces and
passed through `clean_text_value`. -/
def searchableText (df : List Record) (r : Record) : List Char :=
  let fields :=
    (if hasCol Record.jlcpcbPart df then [r.jlcpcbPart.getD []] else []) ++
    (if hasCol Record.model df then [r.model.getD []] else []) ++
    (if hasCol Record.category df then [r.category.getD []] else []) ++
    (if hasCol Record.package df then [r.package.getD []] else []) ++
    (if hasCol Record.description df then [r.description.getD []] else []) ++
    (if hasCol Record.manufacturer df then [r.manufacturer.getD []] else []) ++
    (if hasCol Record.shortDescription df then [r.shortDescription.getD []] else [])
  cleanTextValue (List.intercalate [' '] fields)

/-- Stage 5, one literal token: `clean_text_value(token).split('|')`, match
if any alternative occurs in the searchable text (case-sensitive: both sides
are already cleaned). -/
def textTokenMatches (stext tok : List Char) : Bool :=
  ((cleanTextValue tok).splitOn '|').any (fun part => decide (part <:+: stext))

/-- `_perform_search_on_df`: the filter pipeline over one batch, in source
order.  `Except.error ()` models the uncaught `KeyError` raised by
`result_df["Specifications"]` when parametric conditions exist but the
column does not. -/
def performSearchOnDf (df : List Record) (q : Query) : Except Unit (List Record) :=
  if df.isEmpty then .ok []
  else
    let r1 := stockStage df df q.minStock
    let r2 := prefStage df r1 q.maxPreferenceLevel
    let r3 := fieldStage df r2 Record.package q.package
    let r4 := fieldStage df r3 Record.manufacturer q.manufacturer
    if r4.isEmpty then .ok []
    else
      let toks := classifyTokens (queryTokens q.queryText)
      let r5e : Except Unit (List Record) :=
        if toks.1.isEmpty then .ok r4
        else if hasCol Record.specifications df then
          .ok (r4.filter (fun r => toks.1.all (fun c => evalParametricCondition (specsOf r) c)))
        else .error ()
      match r5e with
      | .error e => .error e
      | .ok r5 =>
        if toks.2.isEmpty ∨ r5.isEmpty then .ok r5
        else .ok (r5.filter (fun r => toks.2.all (fun t => textTokenMatches (searchableText df r) t)))

/-! ### Result ranking (`search_components`, final sort) -/

/-- `np.where(final_df["Stock"].fillna(0) > 0, 0, 1)` when the `Stock` column
exists, else the scalar 1. -/
def stockSortKey (df : List Record) (r : Record) : ℤ :=
  if hasCol Record.stock df then (if 0 < r.stock.getD 0 then 0 else 1) else 1

/-- The `Preference Level` sort key.  The column is created as the constant 99
when absent; inside an existing column, `sort_values` places NaN keys last
(`na_position` default), encoded here by the first component. -/
def prefSortKey (df : List Record) (r : Record) : ℤ × ℤ :=
  if hasCol Record.preferenceLevel df then
    match r.preferenceLevel with
    | some v => (0, v)
    | none => (1, 0)
  else (0, 99)

/-- The `min_price` sort key: `Price Tiers.apply(get_min_price)` when the
column exists, else the scalar 999999. -/
def priceSortKey (df : List Record) (r : Record) : Dec :=
  if hasCol Record.priceTiers df then getMinPrice r.priceTiers else ⟨999999, 0⟩

/-- Lexicographic `≤` on the triple
`(is_stock_zero, Preference Level, min_price)`, all keys ascending, as used
by `sort_values`.  (A multi-column `sort_values` uses `np.lexsort`, which is
a stable sort.) -/
def recKeyLe (df : List Record) (a b : Record) : Bool :=
  decide (stockSortKey df a < stockSortKey df b) ||
    (decide (stockSortKey df a = stockSortKey df b) &&
      (decide ((prefSortKey df a).1 < (prefSortKey df b).1) ||
        (decide ((prefSortKey df a).1 = (prefSortKey df b).1) &&
          (decide ((prefSortKey df a).2 < (prefSortKey df b).2) ||
            (decide ((prefSortKey df a).2 = (prefSortKey df b).2) &&
              (priceSortKey df a).le (priceSortKey df b))))))

/-- The Result Ranker: stable sort of the accumulated result by the
three-part key (the key columns are computed from the result frame itself). -/
def rankRecords (df l : List Record) : List Record :=
  l.mergeSort (recKeyLe df)

/-- Lines 374–389 of `JLCPCB_search.py`: return an empty result unchanged,
otherwise add the key columns and sort. -/
def finalSortStep (l : List Record) : List Record :=
  if l.isEmpty then l else rankRecords l l

/-- `search_components`, resident path: empty (or never-loaded) dataframe
short-circuits; otherwise filter the whole frame once, then apply the final
sort.  Exceptions raised by the filter propagate to the caller. -/
def searchResident (df : List Record) (q : Query) : Except Unit (List Record) :=
  if df.isEmpty then .ok []
  else (performSearchOnDf df q).map finalSortStep

/-- The streaming loop: read batches in order (a read failure raises), filter
each, and keep the non-empty filtered chunks.  Any exception — a batch read
failure or an engine error — aborts the loop. -/
def runStreamBatches (q : Query) :
    List (Except Unit (List Record)) → Except Unit (List (List Record))
  | [] => .ok []
  | .error e :: _ => .error e
  | .ok b :: rest =>
    match performSearchOnDf b q with
    | .error e => .error e
    | .ok f =>
      match runStreamBatches q rest with
      | .error e => .error e
      | .ok fs => .ok (if f.isEmpty then fs else f :: fs)

/-- `search_components`, streaming path: the `try`/`except` handlers catch
every exception from the loop and return an empty dataframe, discarding all
accumulated chunks; otherwise the found chunks are concatenated and the final
sort is applied. -/
def searchStream (batches : List (Except Unit (List Record))) (q : Query) : List Record :=
  match runStreamBatches q batches with
  | .error _ => []
  | .ok found => if found.isEmpty then [] else finalSortStep found.flatten

/-! ### Concrete fixtures -/

/-- A record with every field absent. -/
def emptyRec : Record :=
  ⟨none, none, none, none, none, none, none, none, none, none, none⟩

/-- A record carrying only `Stock = 500`. -/
def stockRec : Record :=
  ⟨none, none, none, none, none, none, none, some 500, none, none, none⟩

/-- A record carrying only `Preference Level = 0`. -/
def prefRec0 : Record :=
  ⟨none, none, none, none, none, none, none, none, some 0, none, none⟩

/-- Stock 5, preference 1, `Price Tiers = []`. -/
def recEmptyTiers : Record :=
  ⟨none, none, none, none, none, none, none, some 5, some 1,
    some (TiersVal.list []), none⟩

/-- Stock 5, preference 1, one well-formed tier priced exactly at the 999999
sentinel. -/
def recSentinelTier : Record :=
  ⟨none, none, none, none, none, none, none, some 5, some 1,
    some (TiersVal.list [Tier.tier (some ⟨999999, 0⟩)]), none⟩

/-- A query constraining only `min_stock = 1`. -/
def qMinStock : Query := ⟨none, some 1, none, none, none⟩

/-- A query whose text is the single parametric token `10kΩ`. -/
def qParam : Query := ⟨some "10kΩ".toList, none, none, none, none⟩

/-! ### C1 — SI prefix scaling -/

/-- **C1** (code bug in the source).  The prefix map of
`_parse_parametric_query` declares the standard factors (`'M': 1e6`,
`'G': 1e9`), but the lookup key is `prefix.lower()`, so a capital `M` hits
the `'m'` (milli) entry and a capital `G` misses the map and gets factor 1:
`10MΩ` parses to SI value 0.01 and `10GΩ` to 10, while lowercase prefixes
such as `k` scale correctly. -/
theorem claim_C1_si_scaling :
    parseParametricQuery "10MΩ".toList =
      some ⟨Op.eq, ⟨10, 3⟩, UnitType.Resistance, some 'M'⟩ ∧
    (Dec.mk 10 3).toRat = 1 / 100 ∧
    parseParametricQuery "10GΩ".toList =
      some ⟨Op.eq, ⟨10, 0⟩, UnitType.Resistance, some 'G'⟩ ∧
    (Dec.mk 10 0).toRat = 10 ∧
    parseParametricQuery "10kΩ".toList =
      some ⟨Op.eq, ⟨10000, 0⟩, UnitType.Resistance, some 'k'⟩ :=
  ⟨by decide, by norm_num [Dec.toRat], by decide, by norm_num [Dec.toRat], by decide⟩

/-! ### C2 — condition evaluator scan -/

/-- The scan over a specification list returns true exactly when some entry
is a dict whose value parses to the condition's unit category and whose SI
value satisfies the comparison. -/
theorem evalSpecList_iff (cond : ParsedCond) (l : List SpecEntry) :
    evalSpecList cond l = true ↔
      ∃ e ∈ l, ∃ n v p, e = SpecEntry.entry n v ∧
        parseParametricQuery (v.getD []) = some p ∧
        p.unit_type = cond.unit_type ∧
        compareOp cond.operator p.value_si cond.value_si = true := by
  induction l with
  | nil => simp [evalSpecList]
  | cons e rest ih =>
    cases e with
    | notDict =>
      rw [evalSpecList, ih]
      simp
    | entry n v =>
      rw [evalSpecList]
      cases h : parseParametricQuery (v.getD []) with
      | none =>
        rw [ih]
        simp only [List.mem_cons]
        constructor
        · rintro ⟨e, he, hrest⟩
          exact ⟨e, Or.inr he, hrest⟩
        · rintro ⟨e, he | he, n', v', p', he', hp', hrest⟩
          · rw [he, SpecEntry.entry.injEq] at he'
            rw [he'.2] at h
            rw [h] at hp'
            exact absurd hp' (by simp)
          · exact ⟨e, he, n', v', p', he', hp', hrest⟩
      | some p =>
        dsimp only
        by_cases hc :
            p.unit_type = cond.unit_type ∧
              compareOp cond.operator p.value_si cond.value_si = true
        · rw [if_pos hc]
          simp only [true_iff, List.mem_cons]
          exact ⟨SpecEntry.entry n v, Or.inl rfl, n, v, p, rfl, h, hc⟩
        · rw [if_neg hc]
          rw [ih]
          simp only [List.mem_cons]
          constructor
          · rintro ⟨e, he, hrest⟩
            exact ⟨e, Or.inr he, hrest⟩
          · rintro ⟨e, he | he, n', v', p', he', hp', hrest⟩
            · rw [he, SpecEntry.entry.injEq] at he'
              rw [he'.2] at h
              rw [h, Option.some.injEq] at hp'
              rw [← hp'] at hrest
              exact absurd hrest hc
            · exact ⟨e, he, n', v', p', he', hp', hrest⟩

/-- **C2** (confirmed).  The Condition Evaluator returns true iff some entry
of the specification list is a mapping whose value parses to the condition's
unit category with an SI value satisfying the comparison; non-list input and
the empty list yield false, and non-mapping or unparseable entries are
skipped (they never satisfy the condition and never abort the scan, which is
total). -/
theorem claim_C2_evaluator_semantics :
    ∀ (sv : SpecsVal) (cond : ParsedCond),
      (evalParametricCondition sv cond = true ↔
        ∃ l, sv = SpecsVal.list l ∧ ∃ e ∈ l, ∃ n v p, e = SpecEntry.entry n v ∧
          parseParametricQuery (v.getD []) = some p ∧
          p.unit_type = cond.unit_type ∧
          compareOp cond.operator p.value_si cond.value_si = true) ∧
      evalParametricCondition SpecsVal.notList cond = false ∧
      evalParametricCondition (SpecsVal.list []) cond = false := by
  intro sv cond
  refine ⟨?_, rfl, rfl⟩
  cases sv with
  | notList => simp [evalParametricCondition]
  | list l =>
    rw [evalParametricCondition, evalSpecList_iff]
    constructor
    · intro h
      exact ⟨l, rfl, h⟩
    · rintro ⟨l', hl', h⟩
      rw [SpecsVal.list.injEq] at hl'
      rw [hl']
      exact h

/-! ### C3 — epsilon-tolerant comparison and the 10kΩ round trip -/

/-- `isclose` in terms of the rational values: the numpy condition
`|a - b| ≤ 1e-8 + 1e-5 * |b|`. -/
theorem isclose_iff (a b : Dec) :
    isclose a b = true ↔
      |a.toRat - b.toRat| ≤ 1 / 100000000 + 1 / 100000 * |b.toRat| := by
  rw [isclose, Dec.le_iff, Dec.toRat_dabs, Dec.toRat_sub, Dec.toRat_add,
    Dec.toRat_mul, Dec.toRat_dabs]
  norm_num [Dec.toRat]

/-- **C3** (confirmed).  `parse(">=10kΩ")` yields operator `>=`, SI value
10000 and unit `Resistance`; evaluating that condition against a spec whose
value is `12kΩ` gives true, `5kΩ` false, and the exact boundary `10kΩ` true;
and at evaluation time `==`, `<=`, `>=` are epsilon-tolerant (any two values
within the `np.isclose` absolute tolerance 1e-8 compare equal) while `<` and
`>` hold exactly for strict rational inequality. -/
theorem claim_C3_roundtrip_and_tolerance :
    parseParametricQuery ">=10kΩ".toList =
      some ⟨Op.ge, ⟨10000, 0⟩, UnitType.Resistance, some 'k'⟩ ∧
    (Dec.mk 10000 0).toRat = 10000 ∧
    evalParametricCondition
      (SpecsVal.list [SpecEntry.entry (some "Resistance".toList) (some "12kΩ".toList)])
      ⟨Op.ge, ⟨10000, 0⟩, UnitType.Resistance, some 'k'⟩ = true ∧
    evalParametricCondition
      (SpecsVal.list [SpecEntry.entry (some "Resistance".toList) (some "5kΩ".toList)])
      ⟨Op.ge, ⟨10000, 0⟩, UnitType.Resistance, some 'k'⟩ = false ∧
    evalParametricCondition
      (SpecsVal.list [SpecEntry.entry (some "Resistance".toList) (some "10kΩ".toList)])
      ⟨Op.ge, ⟨10000, 0⟩, UnitType.Resistance, some 'k'⟩ = true ∧
    (∀ a b : Dec, |a.toRat - b.toRat| ≤ 1 / 100000000 →
      compareOp Op.eq a b = true ∧ compareOp Op.le a b = true ∧
        compareOp Op.ge a b = true) ∧
    (∀ a b : Dec, compareOp Op.gt a b = true ↔ b.toRat < a.toRat) ∧
    (∀ a b : Dec, compareOp Op.lt a b = true ↔ a.toRat < b.toRat) := by
  refine ⟨by decide, by norm_num [Dec.toRat], by decide, by decide, by decide,
    ?_, ?_, ?_⟩
  · intro a b h
    have hc : isclose a b = true := by
      rw [isclose_iff]
      have : (0 : ℚ) ≤ 1 / 100000 * |b.toRat| := by positivity
      linarith
    refine ⟨hc, ?_, ?_⟩ <;> simp [compareOp, hc]
  · intro a b
    simp [compareOp, Dec.lt_iff]
  · intro a b
    simp [compareOp, Dec.lt_iff]

/-- Witness for C3: the tolerant and strict branches at concrete inputs
(`10 ± 1e-8` compares equal under `==`; `11 > 10` under `>`). -/
theorem claim_C3_witness :
    compareOp Op.eq ⟨1000000001, 8⟩ ⟨10, 0⟩ = true ∧
    compareOp Op.gt ⟨11, 0⟩ ⟨10, 0⟩ = true := by
  constructor
  · refine (claim_C3_roundtrip_and_tolerance.2.2.2.2.2.1 ⟨1000000001, 8⟩ ⟨10, 0⟩ ?_).1
    rw [Dec.toRat, Dec.toRat]
    norm_num
    rw [abs_of_nonneg (by norm_num)]
  · exact (claim_C3_roundtrip_and_tolerance.2.2.2.2.2.2.1 ⟨11, 0⟩ ⟨10, 0⟩).mpr
      (by rw [Dec.toRat, Dec.toRat]; norm_num)

/-! ### C6 — missing preference level under a finite bound -/

/-- **C6** counterexample.  `max_preference_level = 99` is a finite bound,
yet a record with no preference level survives the filter (it is filled with
99 and `99 <= 99` holds), so "excluded by any finite bound" is false. -/
theorem claim_C6_counterexample :
    emptyRec.preferenceLevel = none ∧
    prefStage [emptyRec, prefRec0] [emptyRec, prefRec0] (some 99) =
      [emptyRec, prefRec0] :=
  ⟨rfl, by decide⟩

/-- **C6** (corrected).  A record with an absent preference level is filled
with 99 by the preference filter, and is therefore excluded whenever the
bound is strictly below 99 and the `Preference Level` column exists in the
batch. -/
theorem claim_C6_missing_pref_excluded :
    ∀ (df cur : List Record) (m : ℤ) (r : Record),
      m < 99 → hasCol Record.preferenceLevel df = true →
      r.preferenceLevel = none →
      r ∉ prefStage df cur (some m) := by
  intro df cur m r hm hc hr hmem
  simp only [prefStage, if_pos hc] at hmem
  have h2 := (List.mem_filter.mp hmem).2
  rw [hr] at h2
  have h3 := of_decide_eq_true h2
  simp only [Option.getD_none] at h3
  omega

/-- Witness for C6 at a concrete batch and bound. -/
theorem claim_C6_witness :
    emptyRec ∉ prefStage [emptyRec, prefRec0] [emptyRec, prefRec0] (some 2) :=
  claim_C6_missing_pref_excluded _ _ _ _ (by decide) (by decide) rfl

/-! ### C9 — streaming read failure -/

/-- **C9** counterexample.  A read failure after a batch that already matched
does not propagate any error: the query returns normally with an empty result
(the partial result `[stockRec]` is discarded, but the caller sees ordinary
"no matches" output rather than a fatal error). -/
theorem claim_C9_counterexample :
    performSearchOnDf [stockRec] qMinStock = Except.ok [stockRec] ∧
    searchStream [Except.ok [stockRec], Except.error ()] qMinStock = [] :=
  ⟨rfl, by decide⟩

/-- **C9** (corrected).  If any batch read fails during a streaming query,
the handlers catch the exception and the query returns the empty result set —
all partially accumulated per-batch results are discarded (never a partial
result), but no error reaches the caller. -/
theorem claim_C9_stream_error_returns_empty :
    ∀ (bs1 bs2 : List (Except Unit (List Record))) (q : Query),
      searchStream (bs1 ++ Except.error () :: bs2) q = [] := by
  intro bs1 bs2 q
  have h : ∀ bs1 : List (Except Unit (List Record)),
      runStreamBatches q (bs1 ++ Except.error () :: bs2) = Except.error () := by
    intro bs1
    induction bs1 with
    | nil => rfl
    | cons b rest ih =>
      cases b with
      | error e => rfl
      | ok batch =>
        rw [List.cons_append, runStreamBatches]
        cases hperf : performSearchOnDf batch q with
        | error e => rfl
        | ok f => rw [ih]
  rw [searchStream, h bs1]

/-! ### C8 — streaming vs resident, single batch -/

/-- **C8** counterexample.  With a parametric token and a batch that has no
`Specifications` column, resident-mode search raises (the uncaught `KeyError`
from `result_df["Specifications"]`), while streaming mode catches the same
exception and returns an empty result: the two modes do not return the same
record sequence on logically identical data. -/
theorem claim_C8_counterexample :
    searchResident [stockRec] qParam = Except.error () ∧
    searchStream [Except.ok [stockRec]] qParam = [] :=
  ⟨rfl, by decide⟩

/-- **C8** (corrected).  Whenever resident-mode search completes without
raising, streaming-mode search over the same records as a single batch
returns exactly the same sequence (both paths run the same filter and the
same final ranker; only the error behaviour differs). -/
theorem claim_C8_single_batch_equal :
    ∀ (df : List Record) (q : Query) (res : List Record),
      searchResident df q = Except.ok res →
      searchStream [Except.ok df] q = res := by
  intro df q res h
  rw [searchResident] at h
  by_cases hdf : df.isEmpty
  · rw [if_pos hdf] at h
    injection h with h
    have hperf : performSearchOnDf df q = Except.ok [] := by
      rw [performSearchOnDf, if_pos hdf]
    rw [searchStream]
    simp only [runStreamBatches, hperf, List.isEmpty_nil, if_true]
    rw [← h]
  · rw [if_neg hdf] at h
    cases hperf : performSearchOnDf df q with
    | error e =>
      rw [hperf] at h
      exact absurd h (by simp [Except.map])
    | ok f =>
      rw [hperf] at h
      have hres : finalSortStep f = res := by
        simpa [Except.map] using h
      rw [searchStream]
      have hrun : runStreamBatches q [Except.ok df] =
          Except.ok (if f.isEmpty then [] else [f]) := by
        rw [runStreamBatches, hperf]
        rfl
      rw [hrun]
      rcases Bool.eq_false_or_eq_true f.isEmpty with hf | hf
      · have hfe : f = [] := List.isEmpty_iff.mp hf
        rw [hf, ← hres, hfe]
        simp [finalSortStep]
      · rw [hf]
        simp [hres]

/-- Witness for C8: a one-record batch matched by a plain stock filter is
returned identically by the streaming path. -/
theorem claim_C8_witness :
    searchStream [Except.ok [stockRec]] qMinStock = [stockRec] := by
  refine claim_C8_single_batch_equal _ _ _ ?_
  have hperf : performSearchOnDf [stockRec] qMinStock = Except.ok [stockRec] := rfl
  rw [searchResident, if_neg (by decide), hperf]
  show Except.ok (finalSortStep [stockRec]) = Except.ok [stockRec]
  rw [finalSortStep]
  simp [rankRecords]

/-! ### C4 / C5 — the Result Ranker -/

/-- The full sort key of one record as a lexicographically ordered tuple:
`is_stock_zero`, then the `Preference Level` pair (NaN-last flag, value),
then `min_price` as a rational. -/
def keyLex (df : List Record) (r : Record) : ℤ ×ₗ (ℤ ×ₗ (ℤ ×ₗ ℚ)) :=
  toLex (stockSortKey df r,
    toLex ((prefSortKey df r).1, toLex ((prefSortKey df r).2, (priceSortKey df r).toRat)))

/-- The boolean comparator used by the ranker agrees with the lexicographic
order on the key tuples. -/
theorem recKeyLe_iff (df : List Record) (a b : Record) :
    recKeyLe df a b = true ↔ keyLex df a ≤ keyLex df b := by
  rw [recKeyLe, keyLex, keyLex]
  simp only [Prod.Lex.le_iff, Bool.or_eq_true, Bool.and_eq_true,
    decide_eq_true_iff, Dec.le_iff]

theorem recKeyLe_trans (df : List Record) :
    ∀ a b c, recKeyLe df a b = true → recKeyLe df b c = true →
      recKeyLe df a c = true := by
  intro a b c h1 h2
  exact (recKeyLe_iff df a c).mpr
    (le_trans ((recKeyLe_iff df a b).mp h1) ((recKeyLe_iff df b c).mp h2))

theorem recKeyLe_total (df : List Record) :
    ∀ a b, (recKeyLe df a b || recKeyLe df b a) = true := by
  intro a b
  rw [Bool.or_eq_true]
  rcases le_total (keyLex df a) (keyLex df b) with h | h
  · exact Or.inl ((recKeyLe_iff df a b).mpr h)
  · exact Or.inr ((recKeyLe_iff df b a).mpr h)

/-- **C4** (corrected).  The ranker permutes its input into ascending
lexicographic order on `(is_stock_zero, preference_level, min_price)`; in
particular no record with `stock = 0` ever precedes a record with
`stock > 0`, and a record with empty `price_tiers` (whose `min_price` is the
999999 sentinel) never precedes a record with equal stock and preference keys
whose minimum tier price is strictly below the sentinel. -/
theorem claim_C4_rank_order :
    ∀ (df l : List Record),
      (rankRecords df l).Perm l ∧
      (rankRecords df l).Pairwise (fun a b => keyLex df a ≤ keyLex df b) ∧
      (rankRecords df l).Pairwise (fun a b =>
        ¬(stockSortKey df a = 1 ∧ stockSortKey df b = 0)) ∧
      (rankRecords df l).Pairwise (fun a b =>
        a.priceTiers = some (TiersVal.list []) →
        stockSortKey df a = stockSortKey df b →
        prefSortKey df a = prefSortKey df b →
        ¬((priceSortKey df b).toRat < (999999 : ℚ))) := by
  intro df l
  have hsorted : (rankRecords df l).Pairwise (fun a b => recKeyLe df a b = true) :=
    List.sorted_mergeSort (recKeyLe_trans df) (recKeyLe_total df) l
  refine ⟨List.mergeSort_perm l _,
    hsorted.imp (fun h => (recKeyLe_iff df _ _).mp h), ?_, ?_⟩
  · refine hsorted.imp ?_
    intro a b h
    have hk := (recKeyLe_iff df a b).mp h
    rw [keyLex, keyLex, Prod.Lex.le_iff] at hk
    rintro ⟨ha, hb⟩
    rw [ha, hb] at hk
    rcases hk with h1 | ⟨h1, -⟩ <;> omega
  · refine hsorted.imp ?_
    intro a b h hempty hstock hpref hlt
    have hpa : priceSortKey df a = ⟨999999, 0⟩ := by
      rw [priceSortKey, hempty]
      have h9 : getMinPrice (some (TiersVal.list [])) = ⟨999999, 0⟩ := rfl
      rw [h9, ite_self]
    have hk := (recKeyLe_iff df a b).mp h
    rw [keyLex, keyLex, Prod.Lex.le_iff] at hk
    rcases hk with h1 | ⟨-, hk⟩
    · rw [hstock] at h1
      exact absurd h1 (lt_irrefl _)
    · rw [Prod.Lex.le_iff] at hk
      rcases hk with h2 | ⟨-, hk⟩
      · rw [hpref] at h2
        exact absurd h2 (lt_irrefl _)
      · rw [Prod.Lex.le_iff] at hk
        rcases hk with h3 | ⟨-, hk⟩
        · rw [hpref] at h3
          exact absurd h3 (lt_irrefl _)
        · rw [hpa] at hk
          have h99 : (Dec.mk 999999 0).toRat = (999999 : ℚ) := by
            norm_num [Dec.toRat]
          rw [h99] at hk
          dsimp only at hk
          linarith

/-- **C4** counterexample.  A record with `price_tiers = []` and a record
with one well-formed tier priced exactly 999999 get equal sort keys (the
tier's price does not beat the sentinel), so with equal stock and preference
keys the empty-tiers record does NOT sort strictly after the tiered one — the
stable sort keeps it first. -/
theorem claim_C4_counterexample :
    recEmptyTiers.priceTiers = some (TiersVal.list []) ∧
    recSentinelTier.priceTiers =
      some (TiersVal.list [Tier.tier (some ⟨999999, 0⟩)]) ∧
    stockSortKey [recEmptyTiers, recSentinelTier] recEmptyTiers =
      stockSortKey [recEmptyTiers, recSentinelTier] recSentinelTier ∧
    prefSortKey [recEmptyTiers, recSentinelTier] recEmptyTiers =
      prefSortKey [recEmptyTiers, recSentinelTier] recSentinelTier ∧
    rankRecords [recEmptyTiers, recSentinelTier]
      [recEmptyTiers, recSentinelTier] = [recEmptyTiers, recSentinelTier] := by
  refine ⟨rfl, rfl, by decide, by decide, ?_⟩
  apply List.mergeSort_of_sorted
  have h : recKeyLe [recEmptyTiers, recSentinelTier]
      recEmptyTiers recSentinelTier = true := by decide
  refine List.Pairwise.cons ?_ (List.pairwise_singleton _ _)
  intro b hb
  rw [List.mem_singleton] at hb
  rw [hb]
  exact h

/-- **C5** (confirmed).  The ranker's sort is stable: two records with equal
key triples keep their relative input order (as an adjacent-sublist
preservation property, which also covers duplicated records). -/
theorem claim_C5_rank_stable :
    ∀ (df l : List Record) (a b : Record),
      [a, b].Sublist l → keyLex df a = keyLex df b →
      [a, b].Sublist (rankRecords df l) := by
  intro df l a b hsub hkey
  exact List.pair_sublist_mergeSort (recKeyLe_trans df) (recKeyLe_total df)
    ((recKeyLe_iff df a b).mpr (le_of_eq hkey)) hsub

/-- Witness for C5: two distinct records with identical keys stay in input
order through the ranker. -/
theorem claim_C5_witness :
    [recEmptyTiers, recSentinelTier].Sublist
      (rankRecords [recEmptyTiers, recSentinelTier]
        [recEmptyTiers, recSentinelTier]) :=
  claim_C5_rank_stable _ _ _ _ (List.Sublist.refl _) rfl

/-! ### C10 — idempotence of the Record Normalizer

The proof tracks what is true of every output of `cleanTextValue`: the
characters are ASCII fixed points of `pyLower`, the only whitespace is `' '`,
no two adjacent characters are both whitespace, and the ends are not
whitespace; on such strings every pipeline stage is the identity. -/

theorem char_toNat_ofNat {n : Nat} (h : n < 55296) : (Char.ofNat n).toNat = n := by
  rw [Char.ofNat, dif_pos (Or.inl h : Nat.isValidChar n)]
  rfl

theorem pyLower_idem (c : Char) : pyLower (pyLower c) = pyLower c := by
  by_cases h1 : 65 ≤ c.toNat ∧ c.toNat ≤ 90
  · have hc : pyLower c = Char.ofNat (c.toNat + 32) := by
      rw [pyLower, if_pos h1]
    have ht : (Char.ofNat (c.toNat + 32)).toNat = c.toNat + 32 :=
      char_toNat_ofNat (by omega)
    rw [hc, pyLower, if_neg (by rw [ht]; omega), if_neg (by rw [ht]; omega),
      if_neg (by rw [ht]; omega)]
  · by_cases h2 : 192 ≤ c.toNat ∧ c.toNat ≤ 222 ∧ c.toNat ≠ 215
    · have hc : pyLower c = Char.ofNat (c.toNat + 32) := by
        rw [pyLower, if_neg h1, if_pos h2]
      have ht : (Char.ofNat (c.toNat + 32)).toNat = c.toNat + 32 :=
        char_toNat_ofNat (by omega)
      rw [hc, pyLower, if_neg (by rw [ht]; omega), if_neg (by rw [ht]; omega),
        if_neg (by rw [ht]; omega)]
    · by_cases h3 : 913 ≤ c.toNat ∧ c.toNat ≤ 937 ∧ c.toNat ≠ 930
      · have hc : pyLower c = Char.ofNat (c.toNat + 32) := by
          rw [pyLower, if_neg h1, if_neg h2, if_pos h3]
        have ht : (Char.ofNat (c.toNat + 32)).toNat = c.toNat + 32 :=
          char_toNat_ofNat (by omega)
        rw [hc, pyLower, if_neg (by rw [ht]; omega), if_neg (by rw [ht]; omega),
          if_neg (by rw [ht]; omega)]
      · have hc : pyLower c = c := by rw [pyLower, if_neg h1, if_neg h2, if_neg h3]
        rw [hc, hc]

/-- Adjacent characters are not both whitespace. -/
def notBothWs (a b : Char) : Prop := ¬(isWsCh a = true ∧ isWsCh b = true)

/-- Every character of `collapseWs u` is a non-whitespace character of `u`,
or the single space. -/
theorem collapseWs_chars :
    ∀ (u : List Char) (c : Char), c ∈ collapseWs u →
      (c ∈ u ∧ isWsCh c = false) ∨ c = ' '
  | [], c, h => by simp [collapseWs] at h
  | [d], c, h => by
    rw [collapseWs] at h
    by_cases hw : isWsCh d = true
    · rw [if_pos hw] at h
      right
      simpa using h
    · rw [if_neg hw] at h
      left
      rw [List.mem_singleton] at h
      exact ⟨by simp [h], by rw [h]; exact Bool.eq_false_iff.mpr hw⟩
  | d :: e :: rest, c, h => by
    rw [collapseWs] at h
    by_cases h1 : isWsCh d = true ∧ isWsCh e = true
    · rw [if_pos h1] at h
      rcases collapseWs_chars (e :: rest) c h with ⟨hm, hw⟩ | hsp
      · exact Or.inl ⟨List.mem_cons_of_mem d hm, hw⟩
      · exact Or.inr hsp
    · rw [if_neg h1] at h
      rcases List.mem_cons.mp h with hc | hc
      · by_cases hw : isWsCh d = true
        · rw [if_pos hw] at hc
          exact Or.inr hc
        · rw [if_neg hw] at hc
          exact Or.inl ⟨by simp [hc], by rw [hc]; exact Bool.eq_false_iff.mpr hw⟩
      · rcases collapseWs_chars (e :: rest) c hc with ⟨hm, hw⟩ | hsp
        · exact Or.inl ⟨List.mem_cons_of_mem d hm, hw⟩
        · exact Or.inr hsp

/-- The head of `collapseWs` on a non-empty input. -/
theorem collapseWs_head :
    ∀ (d : Char) (u : List Char),
      (collapseWs (d :: u)).head? = some (if isWsCh d then ' ' else d)
  | d, [] => by
    rw [collapseWs]
    by_cases hw : isWsCh d = true
    · rw [if_pos hw, if_pos hw]
      rfl
    · rw [if_neg hw, if_neg hw]
      rfl
  | d, e :: rest => by
    rw [collapseWs]
    by_cases h1 : isWsCh d = true ∧ isWsCh e = true
    · rw [if_pos h1, collapseWs_head e rest, if_pos h1.1, if_pos h1.2]
    · rw [if_neg h1]
      rfl

/-- No two adjacent characters of `collapseWs u` are both whitespace. -/
theorem collapseWs_chain : ∀ u : List Char, (collapseWs u).Chain' notBothWs
  | [] => by simp [collapseWs]
  | [d] => by
    rw [collapseWs]
    by_cases hw : isWsCh d = true
    · rw [if_pos hw]
      exact List.chain'_singleton _
    · rw [if_neg hw]
      exact List.chain'_singleton _
  | d :: e :: rest => by
    rw [collapseWs]
    by_cases h1 : isWsCh d = true ∧ isWsCh e = true
    · rw [if_pos h1]
      exact collapseWs_chain (e :: rest)
    · rw [if_neg h1]
      refine List.chain'_cons'.mpr ⟨?_, collapseWs_chain (e :: rest)⟩
      intro y hy
      rw [collapseWs_head e rest, Option.mem_def, Option.some.injEq] at hy
      by_cases hd : isWsCh d = true
      · have he : ¬isWsCh e = true := fun he => h1 ⟨hd, he⟩
        rw [if_neg he] at hy
        intro hcontra
        exact he (by rw [hy]; exact hcontra.2)
      · rw [if_neg hd]
        intro hcontra
        exact hd hcontra.1

/-- On a string with no two adjacent whitespace characters whose only
whitespace is `' '`, `collapseWs` is the identity. -/
theorem collapseWs_eq_self :
    ∀ u : List Char, u.Chain' notBothWs →
      (∀ c ∈ u, isWsCh c = true → c = ' ') → collapseWs u = u
  | [], _, _ => rfl
  | [d], _, hsp => by
    rw [collapseWs]
    by_cases hw : isWsCh d = true
    · rw [if_pos hw, hsp d (List.mem_singleton_self d) hw]
    · rw [if_neg hw]
  | d :: e :: rest, hch, hsp => by
    rw [collapseWs]
    have h1 : ¬(isWsCh d = true ∧ isWsCh e = true) := (List.chain'_cons.mp hch).1
    rw [if_neg h1]
    have htail := collapseWs_eq_self (e :: rest) (List.chain'_cons.mp hch).2
      (fun c hc hw => hsp c (List.mem_cons_of_mem d hc) hw)
    rw [htail]
    by_cases hd : isWsCh d = true
    · rw [if_pos hd, hsp d (List.mem_cons_self d (e :: rest)) hd]
    · rw [if_neg hd]

theorem mem_stripEnds {c : Char} {u : List Char} (h : c ∈ stripEnds u) : c ∈ u := by
  rw [stripEnds, List.mem_reverse] at h
  have h2 := (List.dropWhile_suffix isWsCh).sublist.mem h
  rw [List.mem_reverse] at h2
  exact (List.dropWhile_suffix isWsCh).sublist.mem h2

theorem stripEnds_chain {u : List Char} (h : u.Chain' notBothWs) :
    (stripEnds u).Chain' notBothWs := by
  rw [stripEnds]
  have hflip : ∀ a b : Char, notBothWs a b → flip notBothWs a b :=
    fun a b hab ⟨x, y⟩ => hab ⟨y, x⟩
  have h1 : (u.dropWhile isWsCh).Chain' notBothWs :=
    h.suffix (List.dropWhile_suffix _)
  have h2 : ((u.dropWhile isWsCh).reverse).Chain' notBothWs :=
    List.chain'_reverse.mpr (h1.imp hflip)
  have h3 := h2.suffix (List.dropWhile_suffix isWsCh)
  exact List.chain'_reverse.mpr (h3.imp hflip)

theorem dropWhile_head_not {p : Char → Bool} :
    ∀ (l : List Char) {c : Char} {rest : List Char},
      l.dropWhile p = c :: rest → p c = false
  | [], c, rest, h => by simp at h
  | d :: t, c, rest, h => by
    rw [List.dropWhile_cons] at h
    by_cases hd : p d = true
    · rw [if_pos hd] at h
      exact dropWhile_head_not t h
    · rw [if_neg hd] at h
      injection h with h1 h2
      rw [← h1]
      exact Bool.eq_false_iff.mpr hd

theorem dropWhile_idem (p : Char → Bool) (l : List Char) :
    (l.dropWhile p).dropWhile p = l.dropWhile p := by
  cases h : l.dropWhile p with
  | nil => rfl
  | cons c rest =>
    rw [List.dropWhile_cons,
      if_neg (by rw [dropWhile_head_not l h]; exact Bool.false_ne_true)]

theorem stripEnds_idem (u : List Char) : stripEnds (stripEnds u) = stripEnds u := by
  rcases hA : u.dropWhile isWsCh with - | ⟨c, r⟩
  · have h1 : stripEnds u = [] := by rw [stripEnds, hA]; rfl
    rw [h1]
    rfl
  · have hcw : isWsCh c = false := dropWhile_head_not u hA
    set v := (c :: r).reverse with hv
    set w := v.dropWhile isWsCh with hw
    have hse : stripEnds u = w.reverse := by rw [stripEnds, hA]
    have hwne : w ≠ [] := by
      intro hnil
      rw [hw] at hnil
      have hall := List.dropWhile_eq_nil_iff.mp hnil
      have hcv : c ∈ v := by rw [hv, List.mem_reverse]; exact List.mem_cons_self c r
      rw [hall c hcv] at hcw
      exact absurd hcw (by decide)
    have hvl : v.getLast? = some c := by
      rw [hv, List.getLast?_reverse]
      rfl
    have hlast : w.getLast? = some c := by
      obtain ⟨pre, hpre⟩ := (hw ▸ List.dropWhile_suffix isWsCh : w <:+ v)
      obtain ⟨y, hy⟩ := Option.ne_none_iff_exists'.mp
        (fun hnone => hwne (List.getLast?_eq_none_iff.mp hnone))
      have hor : v.getLast? = w.getLast?.or pre.getLast? := by
        rw [← hpre, List.getLast?_append]
      rw [hvl, hy, Option.or_some] at hor
      rw [hy]
      injection hor with hyc
      rw [hyc]
    have hd1 : (w.reverse).dropWhile isWsCh = w.reverse := by
      cases hwr : w.reverse with
      | nil => rfl
      | cons y t =>
        have hy : y = c := by
          have hh := List.head?_reverse w
          rw [hwr, hlast] at hh
          injection hh with hh
        rw [List.dropWhile_cons,
          if_neg (by rw [hy, hcw]; exact Bool.false_ne_true)]
    rw [hse, stripEnds, hd1, List.reverse_reverse, hw, dropWhile_idem]

/-- Every output of `cleanTextValue` consists of ASCII `pyLower` fixed points
whose only whitespace is `' '`. -/
theorem cleanTextValue_chars {c : Char} {s : List Char}
    (h : c ∈ cleanTextValue s) :
    isAsciiCh c = true ∧ pyLower c = c ∧ (isWsCh c = true → c = ' ') := by
  rw [cleanTextValue] at h
  have h1 := mem_stripEnds h
  rcases collapseWs_chars _ c h1 with ⟨hm, hnw⟩ | hsp
  · rw [List.mem_filter] at hm
    obtain ⟨hm2, hascii⟩ := hm
    rw [List.mem_map] at hm2
    obtain ⟨d, -, hd⟩ := hm2
    refine ⟨hascii, ?_, ?_⟩
    · rw [← hd]
      exact pyLower_idem d
    · intro hws
      rw [hws] at hnw
      exact absurd hnw (by decide)
  · rw [hsp]
    exact ⟨by decide, by decide, fun _ => rfl⟩

/-- The whitespace shape of every output of `cleanTextValue`: no two
adjacent whitespace characters. -/
theorem cleanTextValue_chain (s : List Char) :
    (cleanTextValue s).Chain' notBothWs := by
  rw [cleanTextValue]
  exact stripEnds_chain (collapseWs_chain _)

theorem flatMap_nfd_of_ascii :
    ∀ u : List Char, (∀ c ∈ u, isAsciiCh c = true) → u.flatMap nfdChar = u
  | [], _ => rfl
  | c :: cs, h => by
    rw [List.flatMap_cons]
    have hn : nfdChar c = [c] := by
      rw [nfdChar, if_pos (of_decide_eq_true (h c (List.mem_cons_self c cs)))]
    rw [hn, flatMap_nfd_of_ascii cs (fun d hd => h d (List.mem_cons_of_mem c hd))]
    rfl

theorem map_pyLower_of_fixed :
    ∀ u : List Char, (∀ c ∈ u, pyLower c = c) → u.map pyLower = u
  | [], _ => rfl
  | c :: cs, h => by
    rw [List.map_cons, h c (List.mem_cons_self c cs),
      map_pyLower_of_fixed cs (fun d hd => h d (List.mem_cons_of_mem c hd))]

/-- `clean_text_value` is idempotent on strings: its output is already
lowercase, ASCII-only, single-spaced and trimmed, so every pipeline stage
fixes it. -/
theorem cleanTextValue_idem (s : List Char) :
    cleanTextValue (cleanTextValue s) = cleanTextValue s := by
  have hchars : ∀ c ∈ cleanTextValue s, isAsciiCh c = true ∧ pyLower c = c ∧
      (isWsCh c = true → c = ' ') := fun c hc => cleanTextValue_chars hc
  have hflat : (cleanTextValue s).flatMap nfdChar = cleanTextValue s :=
    flatMap_nfd_of_ascii _ (fun c hc => (hchars c hc).1)
  have hmark : (cleanTextValue s).filter (fun c => !isCombMark c) = cleanTextValue s := by
    rw [List.filter_eq_self]
    intro c hc
    have ha := of_decide_eq_true (hchars c hc).1
    have : isCombMark c = false := by
      rw [isCombMark]
      have : ¬(768 ≤ c.toNat) := by omega
      simp [this]
    rw [this]
    rfl
  have hlower : (cleanTextValue s).map pyLower = cleanTextValue s :=
    map_pyLower_of_fixed _ (fun c hc => (hchars c hc).2.1)
  have hascii : (cleanTextValue s).filter isAsciiCh = cleanTextValue s := by
    rw [List.filter_eq_self]
    exact fun c hc => (hchars c hc).1
  have hcollapse : collapseWs (cleanTextValue s) = cleanTextValue s :=
    collapseWs_eq_self _ (cleanTextValue_chain s)
      (fun c hc hw => (hchars c hc).2.2 hw)
  have hstrip : stripEnds (cleanTextValue s) = cleanTextValue s := by
    show stripEnds (cleanTextValue s) = cleanTextValue s
    rw [cleanTextValue, stripEnds_idem]
  calc cleanTextValue (cleanTextValue s)
      = stripEnds (collapseWs (cleanTextValue s)) := by
        rw [cleanTextValue, hflat, hmark, hlower, hascii]
    _ = stripEnds (cleanTextValue s) := by rw [hcollapse]
    _ = cleanTextValue s := hstrip

/-- **C10** (confirmed).  The Record Normalizer is idempotent on strings:
normalizing twice equals normalizing once, because the output is already
lowercase, ASCII-only, single-space separated and trimmed. -/
theorem claim_C10_normalizer_idempotent :
    ∀ s : List Char, cleanTextValue (cleanTextValue s) = cleanTextValue s :=
  fun s => cleanTextValue_idem s

/-! ### C7 — symmetry of the package/manufacturer substring match -/

/-- **C7** counterexample.  The stored field is matched raw (only
case-insensitively), so the accented stored spelling does not match the
unaccented filter token, while the same field normalized does match:
replacing the stored side by its normalized form changes the outcome. -/
theorem claim_C7_counterexample :
    matchAlt "würth elektronik".toList "wurth".toList = false ∧
    matchAlt (cleanTextValue "würth elektronik".toList) "wurth".toList = true :=
  ⟨by decide, by decide⟩

/-- **C7** (corrected).  Matching is invariant under normalizing the filter
token (the filter normalizes its tokens, and normalization is idempotent),
and an accented filter spelling does match the unaccented stored spelling;
but it is not invariant under normalizing the stored field value, which is
compared raw apart from lowercasing. -/
theorem claim_C7_filter_side_normalization :
    (∀ fieldVal tok : List Char,
      matchAlt fieldVal (cleanTextValue tok) = matchAlt fieldVal tok) ∧
    matchAlt "wurth elektronik".toList "Würth".toList = true := by
  constructor
  · intro f t
    rw [matchAlt, matchAlt, cleanTextValue_idem]
  · decide

end JLC

